import Mathlib

/-!
Shallow embedding of the 2Lynk/ThreadJS repository: the docs version-selector
script (`version.js`), the v1.0.0 example mods (`spawn-kit.js`,
`player-tracker.js`, teleport-home) and the sample template mod
(`entrypoints/main.js`).  Pure functions are translated directly; stateful
handlers become explicit state-passing functions returning the new state
together with the list of host-API effects they emit, and event-driven
behaviour becomes folds of step functions over event traces.  JavaScript
numbers appearing as millisecond timestamps and (floored) coordinates are
modelled as `Int`; JS object maps and Java `HashMap`s are modelled as
association lists over `String` keys.
-/

namespace ThreadJS

/-! ### Association-list maps (JS objects / Java HashMaps)

`lookupKey m k` is `m[k]` (`none` when absent, mirroring JS `undefined` /
Java `null`), `setKey m k v` is `m[k] = v` (overwrite in place, append when
new), `delKey m k` is `delete m[k]`. -/

def lookupKey {α : Type} (m : List (String × α)) (k : String) : Option α :=
  match m with
  | [] => none
  | (k', v) :: rest => if k' = k then some v else lookupKey rest k

def setKey {α : Type} (m : List (String × α)) (k : String) (v : α) :
    List (String × α) :=
  match m with
  | [] => [(k, v)]
  | (k', v') :: rest => if k' = k then (k, v) :: rest else (k', v') :: setKey rest k v

def delKey {α : Type} (m : List (String × α)) (k : String) : List (String × α) :=
  match m with
  | [] => []
  | (k', v') :: rest => if k' = k then delKey rest k else (k', v') :: delKey rest k

/-! ### Host-API effects emitted by handlers

One constructor per host call the example mods perform.  `save` carries the
mapping passed to `api.saveData` so that write-back claims can inspect it;
the type parameter `δ` is the per-mod mapping type. -/

inductive Effect (δ : Type) where
  | reply (msg : String)
  | give (itemId : String) (count : Nat)
  | save (key : String) (data : δ)
  | particle (particleId : String)
  | sound (soundId : String)
  | teleport (x y z : Int)
  | feedback (msg : String)
  | sendError (msg : String)
  deriving DecidableEq

def isSaveEff {δ : Type} : Effect δ → Bool
  | .save _ _ => true
  | _ => false

def isGiveEff {δ : Type} : Effect δ → Bool
  | .give _ _ => true
  | _ => false

/-! ### Scheduled-task queue of the sample mod (`main.js`)

`scheduleTask` appends `{ tickTarget: tickCounter + delayTicks, action }` to
the `scheduledTasks` ArrayList; the `onEndTick` handler increments
`tickCounter` and runs a while-loop over the list, executing and removing
every entry with `tickCounter >= tickTarget` (the index is not advanced
after a removal) and catching/logging exceptions from actions.  Actions are
modelled by an id (assigned at scheduling time) plus a flag saying whether
the action throws when executed; `executedLog` is the ghost history of every
task ever executed. -/

structure Task where
  id : Nat
  tickTarget : Nat
  throws : Bool
  deriving DecidableEq

structure SweepResult where
  remaining : List Task
  executed : List Task
  errors : List Nat
  deriving DecidableEq

def sweep (tick : Nat) : List Task → SweepResult
  | [] => ⟨[], [], []⟩
  | t :: rest =>
    let r := sweep tick rest
    if tick ≥ t.tickTarget then
      ⟨r.remaining, t :: r.executed, if t.throws then t.id :: r.errors else r.errors⟩
    else
      ⟨t :: r.remaining, r.executed, r.errors⟩

structure SchedState where
  tickCounter : Nat
  tasks : List Task
  executedLog : List Task
  nextId : Nat
  deriving DecidableEq

inductive SchedEvent where
  | schedule (delayTicks : Nat) (throws : Bool)
  | endTick
  deriving DecidableEq

def schedStep (s : SchedState) : SchedEvent → SchedState
  | .schedule d th =>
    { s with
      tasks := s.tasks ++ [⟨s.nextId, s.tickCounter + d, th⟩]
      nextId := s.nextId + 1 }
  | .endTick =>
    let t := s.tickCounter + 1
    let r := sweep t s.tasks
    { s with
      tickCounter := t
      tasks := r.remaining
      executedLog := s.executedLog ++ r.executed }

def schedRun (s : SchedState) (es : List SchedEvent) : SchedState :=
  es.foldl schedStep s

def initSched : SchedState := ⟨0, [], [], 0⟩

def schedInv (s : SchedState) : Prop :=
  (((s.executedLog ++ s.tasks).map Task.id).Nodup) ∧
  ∀ tk ∈ s.executedLog ++ s.tasks, tk.id < s.nextId

/-! ### The load / parse / fallback pattern of the example mods

All three v1.0.0 example mods initialise their in-memory mapping with
`raw = api.loadData(key, {})` followed by
`state = JSON.parse(JSON.stringify(raw)) || {}` inside a
`try { ... } catch (e) { api.log(warning); state = {}; }`.
`JsVal` models JavaScript values, `jsonRoundTrip` models
`JSON.parse(JSON.stringify v)` (`none` = the parse throws, which happens
exactly when `stringify` yields `undefined`; `undefined`-valued fields of a
top-level object are dropped by `stringify`), `truthyJs` is JS truthiness,
and `loadInit raw` returns (warning logged?, resulting state). -/

inductive JsVal where
  | vundefined
  | vnull
  | vbool (b : Bool)
  | vnum (n : Int)
  | vstr (s : String)
  | vobj (fields : List (String × JsVal))

def isDefinedField : String × JsVal → Bool
  | (_, .vundefined) => false
  | _ => true

def jsonRoundTrip (v : JsVal) : Option JsVal :=
  match v with
  | .vundefined => none
  | .vobj fields => some (.vobj (fields.filter isDefinedField))
  | v => some v

def truthyJs : JsVal → Bool
  | .vundefined => false
  | .vnull => false
  | .vbool b => b
  | .vnum n => n != 0
  | .vstr s => s != ""
  | .vobj _ => true

def loadInit (raw : JsVal) : Bool × JsVal :=
  match jsonRoundTrip raw with
  | none => (true, .vobj [])
  | some v => (false, if truthyJs v then v else .vobj [])

/-! ### spawn-kit.js

State: `received : Record<string, number>` mapping player names to the
timestamp at which they claimed the kit.  `/kit` refuses non-players,
refuses players with a truthy `received[name]` entry (JS truthiness: a
number is truthy iff nonzero), otherwise gives the seven starter items,
records `Date.now()` and saves; `/kitreset <player>` deletes a truthy entry
and saves.  `Date.toLocaleString` formatting is abstracted by `toString` of
the stored timestamp (no claim depends on the date string). -/

abbrev KitMap := List (String × Int)

def truthyNum : Option Int → Bool
  | none => false
  | some t => t != 0

def starterKit : List (String × Nat) :=
  [("minecraft:stone_pickaxe", 1), ("minecraft:stone_axe", 1),
   ("minecraft:stone_shovel", 1), ("minecraft:stone_sword", 1),
   ("minecraft:bread", 16), ("minecraft:torch", 32),
   ("minecraft:oak_planks", 64)]

/-- Model of `item.itemId.replace("minecraft:", "").replace(/_/g, " ")`;
the first `replace` removes the namespace (a prefix of every starter-kit
id), the second replaces every underscore with a space. -/
def prettyItemName (itemId : String) : String :=
  let stripped :=
    if ("minecraft:".data).isPrefixOf itemId.data then itemId.data.drop 10
    else itemId.data
  String.mk (stripped.map fun c => if c = '_' then ' ' else c)

def itemLine (itemId : String) (count : Nat) : String :=
  "§a+ §f" ++ toString count ++ "x §e" ++ prettyItemName itemId

def kitExecute (received : KitMap) (isPlayer : Bool) (playerName : String)
    (now : Int) : KitMap × List (Effect KitMap) :=
  if !isPlayer then
    (received, [.reply "§cOnly players can use this command!"])
  else if truthyNum (lookupKey received playerName) then
    (received,
     [.reply "§cYou've already received your starter kit!",
      .reply ("§7Received on: " ++ toString ((lookupKey received playerName).getD 0))])
  else
    let received' := setKey received playerName now
    (received',
     [Effect.reply "§6=== Starter Kit ==="] ++
     (starterKit.flatMap fun it => [Effect.give it.1 it.2, Effect.reply (itemLine it.1 it.2)]) ++
     [Effect.save "kit_received" received',
      Effect.particle "minecraft:happy_villager",
      Effect.sound "minecraft:entity.player.levelup",
      Effect.reply "§a✓ Starter kit received!"])

def kitresetExecute (received : KitMap) (target : String) :
    KitMap × List (Effect KitMap) :=
  if !truthyNum (lookupKey received target) then
    (received, [.reply ("§c" ++ target ++ " hasn't received a kit yet")])
  else
    let received' := delKey received target
    (received',
     [Effect.save "kit_received" received',
      Effect.reply ("§aReset kit status for " ++ target)])

/-- One spawn-kit-relevant host event: a `/kit` invocation (by a player or
not, carrying `Date.now()`) or a `/kitreset <target>` invocation. -/
inductive KitEvent where
  | kit (isPlayer : Bool) (playerName : String) (now : Int)
  | kitreset (target : String)
  deriving DecidableEq

/-- Real `Date.now()` values are nonzero; traces satisfying this side
condition avoid the JS-truthiness corner where a zero timestamp is falsy. -/
def kitTimeNonzero : KitEvent → Bool
  | .kit _ _ t => t != 0
  | .kitreset _ => true

def kitStep (m : KitMap) : KitEvent → KitMap × List (Effect KitMap)
  | .kit b p now => kitExecute m b p now
  | .kitreset t => kitresetExecute m t

def kitRun (m : KitMap) (es : List KitEvent) : KitMap :=
  es.foldl (fun m e => (kitStep m e).1) m

def hasGive {δ : Type} (effs : List (Effect δ)) : Bool :=
  effs.any isGiveEff

/-- Number of kit invocations in the trace that actually grant items to
player `p`, starting from mapping `m`. -/
def kitGrantsTo (p : String) (m : KitMap) : List KitEvent → Nat
  | [] => 0
  | e :: rest =>
    (match e with
     | .kit _ q _ => if q = p ∧ hasGive (kitStep m e).2 then 1 else 0
     | .kitreset _ => 0) + kitGrantsTo p (kitStep m e).1 rest

def resetCountTo (p : String) (es : List KitEvent) : Nat :=
  es.countP (fun e => e = KitEvent.kitreset p)

/-- Trace-level reading of "that player claimed the kit and no later
kitreset cleared them": some player-sent `/kit` invocation by `p` occurs,
with no `/kitreset p` after it. -/
def claimedNotReset (p : String) (es : List KitEvent) : Prop :=
  ∃ es₁ now es₂, es = es₁ ++ KitEvent.kit true p now :: es₂ ∧
    KitEvent.kitreset p ∉ es₂

/-! ### player-tracker.js

State: `activity : Record<string, PlayerActivity>`.  The
`onCommandExecute` listener creates a fresh record for unseen players,
increments `commandCount`, updates `lastCommand` / `lastActive`, and saves
under `"player_activity"` on every event. -/

structure Activity where
  commandCount : Nat
  lastCommand : Option String
  lastActive : Option Int
  firstSeen : Int
  deriving DecidableEq

structure CmdEvent where
  playerName : String
  command : String
  timestamp : Int
  deriving DecidableEq

abbrev ActivityMap := List (String × Activity)

def trackerStep (activity : ActivityMap) (ev : CmdEvent) :
    ActivityMap × List (Effect ActivityMap) :=
  let base :=
    match lookupKey activity ev.playerName with
    | none => setKey activity ev.playerName ⟨0, none, none, ev.timestamp⟩
    | some _ => activity
  let cur := (lookupKey base ev.playerName).getD ⟨0, none, none, ev.timestamp⟩
  let cur' : Activity :=
    { cur with
      commandCount := cur.commandCount + 1
      lastCommand := some ev.command
      lastActive := some ev.timestamp }
  let activity' := setKey base ev.playerName cur'
  (activity', [Effect.save "player_activity" activity'])

def trackerRun (m : ActivityMap) (evs : List CmdEvent) : ActivityMap :=
  evs.foldl (fun m ev => (trackerStep m ev).1) m

/-! ### teleport-home (second module of player-tracker.js's source file)

State: `homes : Record<string, Home>`.  The `/home [set|delete|list]`
command saves after both mutations (`set` and `delete`) and replies on every
failed precondition.  Player coordinates and yaw/pitch (JS numbers) are
modelled as `Int`; only their values are threaded through, never arithmetic
on them. -/

structure HomeRec where
  x : Int
  y : Int
  z : Int
  dimension : String
  yaw : Int
  pitch : Int
  deriving DecidableEq

structure PlayerPos where
  x : Int
  y : Int
  z : Int
  dimension : String
  yaw : Int
  pitch : Int
  deriving DecidableEq

abbrev HomeMap := List (String × HomeRec)

def homeExecute (homes : HomeMap) (player : Option (String × PlayerPos))
    (action : Option String) : HomeMap × List (Effect HomeMap) :=
  match player with
  | none => (homes, [.reply "§cOnly players can use this command!"])
  | some (playerName, info) =>
    let act := (action.map String.toLower).getD "tp"
    if act = "set" then
      let h : HomeRec := ⟨info.x, info.y, info.z, info.dimension, info.yaw, info.pitch⟩
      let homes' := setKey homes playerName h
      (homes',
       [Effect.save "homes" homes',
        Effect.reply ("§aHome set at §f" ++ toString info.x ++ ", " ++
          toString info.y ++ ", " ++ toString info.z),
        Effect.particle "minecraft:happy_villager",
        Effect.sound "minecraft:block.note_block.pling"])
    else if act = "delete" then
      match lookupKey homes playerName with
      | none => (homes, [.reply "§cYou don't have a home set!"])
      | some _ =>
        let homes' := delKey homes playerName
        (homes', [Effect.save "homes" homes', Effect.reply "§aHome deleted!"])
    else if act = "list" then
      match lookupKey homes playerName with
      | none => (homes, [.reply "§cYou don't have a home set!"])
      | some h =>
        (homes,
         [Effect.reply "§6=== Your Home ===",
          Effect.reply ("§eLocation: §f" ++ toString h.x ++ ", " ++
            toString h.y ++ ", " ++ toString h.z),
          Effect.reply ("§eDimension: §f" ++ h.dimension)])
    else
      match lookupKey homes playerName with
      | none => (homes, [.reply "§cYou don't have a home set! Use §e/home set"])
      | some h =>
        (homes,
         [Effect.particle "minecraft:portal",
          Effect.teleport h.x h.y h.z,
          Effect.particle "minecraft:portal",
          Effect.sound "minecraft:entity.enderman.teleport",
          Effect.reply "§aTeleported home!"])

/-! ### Sample template mod handlers (`main.js`)

The template mod keeps its mappings (`homeData`, `dailyClaims`, ...) in
plain in-memory `HashMap`s; the file contains no `loadData`/`saveData`
call, so no handler ever emits a `save` effect.  Handlers use `Effect Unit`
since there is no persisted mapping type.  `getPlayer() === null` guards
`return 0` without sending any message. -/

structure BlockPos where
  x : Int
  y : Int
  z : Int
  deriving DecidableEq

/-- The `/js kit` subcommand (diamond tier): silently returns 0 for
non-players, otherwise grants five stacks unconditionally. -/
def jsKitExecute (player : Option String) : List (Effect Unit) × Int :=
  match player with
  | none => ([], 0)
  | some _ =>
    ([Effect.give "minecraft:diamond_sword" 1,
      Effect.give "minecraft:diamond_pickaxe" 1,
      Effect.give "minecraft:cooked_beef" 32,
      Effect.give "minecraft:torch" 64,
      Effect.give "minecraft:oak_planks" 64,
      Effect.sound "minecraft:entity.item.pickup",
      Effect.feedback "🎒 Starter kit received!"], 1)

/-- The standalone `/kit` command (iron tier): no per-player bookkeeping of
any kind, grants eight stacks on every invocation by a player. -/
def standaloneKitExecute (player : Option String) : List (Effect Unit) × Int :=
  match player with
  | none => ([], 0)
  | some _ =>
    ([Effect.give "minecraft:iron_sword" 1,
      Effect.give "minecraft:iron_pickaxe" 1,
      Effect.give "minecraft:iron_axe" 1,
      Effect.give "minecraft:bread" 16,
      Effect.give "minecraft:torch" 32,
      Effect.give "minecraft:oak_planks" 64,
      Effect.give "minecraft:crafting_table" 1,
      Effect.give "minecraft:furnace" 1,
      Effect.sound "minecraft:entity.item.pickup",
      Effect.particle "minecraft:happy_villager",
      Effect.feedback "🎒 Starter kit received!"], 1)

/-- A sequence of standalone `/kit` invocations; the command reads and
writes no state, so the run is the list of per-invocation results. -/
def standaloneKitRun (invocations : List (Option String)) :
    List (List (Effect Unit) × Int) :=
  invocations.map standaloneKitExecute

/-- Session record kept in the template's in-memory `playerData` map by
the join handler (`{ name, joinedAt }`). -/
structure PlayerRec where
  name : String
  joinedAt : Int
  deriving DecidableEq

/-- `/js playtime`: the one template handler whose non-player guard does
send a message (`sendError "Players only!"` then return 0).  For a player
it reads the session record from the in-memory `playerData` map and, when
present, sends the formatted session time; it returns 1 either way. -/
def jsPlaytimeExecute (playerData : List (String × PlayerRec))
    (player : Option String) (now : Int) : List (Effect Unit) × Int :=
  match player with
  | none => ([Effect.sendError "Players only!"], 0)
  | some uuid =>
    match lookupKey playerData uuid with
    | none => ([], 1)
    | some data =>
      let elapsed := now - data.joinedAt
      let mins := Int.fdiv elapsed 60000
      let secs := Int.fdiv (elapsed % 60000) 1000
      ([Effect.feedback ("⏱ Online for " ++ toString mins ++ "m " ++
         toString secs ++ "s")], 1)

/-- `/js home set`: floors the player position into a `BlockPos`, stores it
in the in-memory `homeData` map and sends feedback; there is no `saveData`
call anywhere in `main.js`. -/
def jsHomeSet (homeData : List (String × BlockPos))
    (player : Option (String × BlockPos)) :
    List (String × BlockPos) × List (Effect Unit) × Int :=
  match player with
  | none => (homeData, [], 0)
  | some (uuid, pos) =>
    (setKey homeData uuid pos,
     [Effect.feedback ("🏠 Home set at " ++ toString pos.x ++ ", " ++
        toString pos.y ++ ", " ++ toString pos.z)], 1)

/-- `/js home go`: teleports to the stored position, or sends an error and
returns 0 when no home is stored. -/
def jsHomeGo (homeData : List (String × BlockPos)) (player : Option String) :
    List (String × BlockPos) × List (Effect Unit) × Int :=
  match player with
  | none => (homeData, [], 0)
  | some uuid =>
    match lookupKey homeData uuid with
    | none => (homeData, [.sendError "No home set. Use /js home set first."], 0)
    | some pos =>
      (homeData,
       [Effect.teleport pos.x pos.y pos.z, Effect.feedback "🏠 Teleported home!"], 1)

def DAILY_COOLDOWN_MS : Int := 5 * 60 * 1000

/-- Model of `formatDurationMs`: seconds rounded down (`Math.floor`, hence
`Int.fdiv`), clamped at 0, rendered as "Xm Ys" or "Ys". -/
def formatDurationMs (ms : Int) : String :=
  let totalSeconds := max 0 (Int.fdiv ms 1000)
  let minutes := Int.fdiv totalSeconds 60
  let seconds := totalSeconds % 60
  if minutes > 0 then toString minutes ++ "m " ++ toString seconds ++ "s"
  else toString seconds ++ "s"

/-- `/js daily`: non-players silently return 0; a stored claim newer than
`DAILY_COOLDOWN_MS` blocks the reward (feedback with the remaining wait,
return 0, no mutation); otherwise the claim time is recorded and the reward
granted. -/
def jsDaily (dailyClaims : List (String × Int)) (player : Option String)
    (now : Int) : List (String × Int) × List (Effect Unit) × Int :=
  match player with
  | none => (dailyClaims, [], 0)
  | some uuid =>
    let blockedRemaining :=
      match lookupKey dailyClaims uuid with
      | some last =>
        if now - last < DAILY_COOLDOWN_MS then some (DAILY_COOLDOWN_MS - (now - last))
        else none
      | none => none
    match blockedRemaining with
    | some remaining =>
      (dailyClaims,
       [Effect.feedback ("🎁 Daily reward available in " ++
          formatDurationMs remaining ++ ".")], 0)
    | none =>
      (setKey dailyClaims uuid now,
       [Effect.give "minecraft:emerald" 3,
        Effect.give "minecraft:golden_apple" 1,
        Effect.feedback "🎁 Daily reward claimed!"], 1)

/-! ### version.js

`VERSION_CONFIG` is the static version table.  `selectedIndex` models the
detection loop of `initThreadJsVersionSelector` (strip trailing slashes from
`location.pathname`, then for each entry in order whose `pages[pageKey]`
exists, overwrite `currentIndex` with the entry's index whenever
`"/" + pageHref`, stripped of trailing slashes, is a suffix of the current
path; the final value is assigned to the dropdown — with the shipped table
every entry defines every page key, so config indices and option indices
coincide).  `handleChange` models the change listener: find the entry whose
`id` equals the selected value and navigate to its stored page path, doing
nothing when there is no such entry or no path for this page key.  JS
`String.prototype.endsWith` is modelled on the character lists. -/

def stripTrailingSlash (s : String) : String :=
  String.mk (s.data.reverse.dropWhile (fun c => c = '/')).reverse

def strEndsWith (s suffix : String) : Bool :=
  suffix.data.isSuffixOf s.data

structure VersionEntry where
  id : String
  label : String
  note : String
  pages : List (String × String)
  deriving DecidableEq

def versionMain : VersionEntry :=
  { id := "main"
    label := "main (latest)"
    note := "Tracking the latest code on the main branch."
    pages := [("api", "index.html"), ("inspector", "inspector.html"),
              ("examples", "example-mods.html")] }

def versionV100 : VersionEntry :=
  { id := "v1.0.0"
    label := "v1.0.0"
    note := "Snapshot of the API for ThreadJS v1.0.0."
    pages := [("api", "v1.0.0/index.html"), ("inspector", "v1.0.0/inspector.html"),
              ("examples", "v1.0.0/example-mods.html")] }

def VERSION_CONFIG : List VersionEntry := [versionMain, versionV100]

def detectFrom (cp pk : String) : List VersionEntry → Nat → Nat → Nat
  | [], _, cur => cur
  | v :: rest, idx, cur =>
    match lookupKey v.pages pk with
    | none => detectFrom cp pk rest (idx + 1) cur
    | some href =>
      if strEndsWith cp (stripTrailingSlash ("/" ++ href)) then
        detectFrom cp pk rest (idx + 1) idx
      else
        detectFrom cp pk rest (idx + 1) cur

def selectedIndex (pk path : String) : Nat :=
  detectFrom (stripTrailingSlash path) pk VERSION_CONFIG 0 0

def entryMatches (pk cp : String) (v : VersionEntry) : Bool :=
  match lookupKey v.pages pk with
  | none => false
  | some href => strEndsWith cp (stripTrailingSlash ("/" ++ href))

def matchesFrom (pk cp : String) (entries : List VersionEntry) (i : Nat) : Bool :=
  match entries.drop i with
  | [] => false
  | v :: _ => entryMatches pk cp v

def matchesAt (pk path : String) (i : Nat) : Bool :=
  matchesFrom pk (stripTrailingSlash path) VERSION_CONFIG i

def findById (entries : List VersionEntry) (s : String) : Option VersionEntry :=
  match entries with
  | [] => none
  | v :: rest => if v.id = s then some v else findById rest s

def handleChange (selectedId pk : String) : Option String :=
  match findById VERSION_CONFIG selectedId with
  | none => none
  | some v => lookupKey v.pages pk

/-! ## Association-list lemmas -/

theorem lookupKey_setKey_self {α : Type} (m : List (String × α)) (k : String) (v : α) :
    lookupKey (setKey m k v) k = some v := by
  induction m with
  | nil => simp [setKey, lookupKey]
  | cons kv rest ih =>
    obtain ⟨k', v'⟩ := kv
    by_cases h : k' = k
    · simp [setKey, h, lookupKey]
    · simp [setKey, h, lookupKey, ih]

theorem lookupKey_setKey_ne {α : Type} (m : List (String × α)) (k q : String) (v : α)
    (h : q ≠ k) : lookupKey (setKey m k v) q = lookupKey m q := by
  induction m with
  | nil => simp [setKey, lookupKey, Ne.symm h]
  | cons kv rest ih =>
    obtain ⟨k', v'⟩ := kv
    by_cases hk : k' = k
    · subst hk
      simp [setKey, lookupKey, Ne.symm h]
    · simp [setKey, hk, lookupKey, ih]

theorem lookupKey_delKey_self {α : Type} (m : List (String × α)) (k : String) :
    lookupKey (delKey m k) k = none := by
  induction m with
  | nil => simp [delKey, lookupKey]
  | cons kv rest ih =>
    obtain ⟨k', v'⟩ := kv
    by_cases h : k' = k
    · simp [delKey, h, ih]
    · simp [delKey, h, lookupKey, ih]

theorem lookupKey_delKey_ne {α : Type} (m : List (String × α)) (k q : String)
    (h : q ≠ k) : lookupKey (delKey m k) q = lookupKey m q := by
  induction m with
  | nil => simp [delKey]
  | cons kv rest ih =>
    obtain ⟨k', v'⟩ := kv
    by_cases hk : k' = k
    · subst hk
      simp [delKey, lookupKey, Ne.symm h, ih]
    · simp [delKey, hk, lookupKey, ih]

/-! ## Scheduled-task sweep lemmas -/

theorem sweep_remaining (tick : Nat) (l : List Task) :
    (sweep tick l).remaining = l.filter fun tk => decide (tick < tk.tickTarget) := by
  induction l with
  | nil => rfl
  | cons t rest ih =>
    by_cases h : t.tickTarget ≤ tick
    · simp [sweep, h, List.filter_cons, Nat.not_lt.mpr h, ih]
    · simp [sweep, h, List.filter_cons, Nat.lt_of_not_le h, ih]

theorem sweep_executed (tick : Nat) (l : List Task) :
    (sweep tick l).executed = l.filter fun tk => decide (tk.tickTarget ≤ tick) := by
  induction l with
  | nil => rfl
  | cons t rest ih =>
    by_cases h : t.tickTarget ≤ tick
    · simp [sweep, h, List.filter_cons, ih]
    · simp [sweep, h, List.filter_cons, ih]

theorem sweep_errors (tick : Nat) (l : List Task) :
    (sweep tick l).errors =
      ((l.filter fun tk => decide (tk.tickTarget ≤ tick)).filter Task.throws).map Task.id := by
  induction l with
  | nil => rfl
  | cons t rest ih =>
    by_cases h : t.tickTarget ≤ tick
    · by_cases ht : t.throws
      · simp [sweep, h, ht, List.filter_cons, ih]
      · simp [sweep, h, ht, List.filter_cons, ih]
    · simp [sweep, h, List.filter_cons, ih]

/-- C1: on every server tick the handler increments the tick counter, then
executes and removes exactly the scheduled entries whose due tick has
passed (relative to the incremented counter); actions that throw are
caught and their task ids logged, and those failed tasks are removed like
the rest (never retried); entries not yet due remain in the list. -/
theorem c1_tick_sweep (s : SchedState) :
    (schedStep s SchedEvent.endTick).tickCounter = s.tickCounter + 1 ∧
    (schedStep s SchedEvent.endTick).tasks =
      s.tasks.filter (fun tk => decide (s.tickCounter + 1 < tk.tickTarget)) ∧
    (schedStep s SchedEvent.endTick).executedLog =
      s.executedLog ++ s.tasks.filter (fun tk => decide (tk.tickTarget ≤ s.tickCounter + 1)) ∧
    (sweep (s.tickCounter + 1) s.tasks).errors =
      ((s.tasks.filter (fun tk => decide (tk.tickTarget ≤ s.tickCounter + 1))).filter
        Task.throws).map Task.id ∧
    (∀ tk ∈ (schedStep s SchedEvent.endTick).tasks, s.tickCounter + 1 < tk.tickTarget) ∧
    (∀ tk ∈ s.tasks, tk.tickTarget ≤ s.tickCounter + 1 →
      tk ∉ (schedStep s SchedEvent.endTick).tasks) := by
  refine ⟨rfl, ?_, ?_, sweep_errors _ _, ?_, ?_⟩
  · simpa [schedStep] using sweep_remaining (s.tickCounter + 1) s.tasks
  · simpa [schedStep] using congrArg (s.executedLog ++ ·) (sweep_executed (s.tickCounter + 1) s.tasks)
  · intro tk htk
    have h := sweep_remaining (s.tickCounter + 1) s.tasks
    simp only [schedStep] at htk
    rw [h] at htk
    exact of_decide_eq_true (List.mem_filter.mp htk).2
  · intro tk _ hdue hmem
    have h := sweep_remaining (s.tickCounter + 1) s.tasks
    simp only [schedStep] at hmem
    rw [h] at hmem
    exact absurd (of_decide_eq_true (List.mem_filter.mp hmem).2) (Nat.not_lt.mpr hdue)

theorem decide_lt_eq_not_decide_le (tick : Nat) (tk : Task) :
    decide (tick < tk.tickTarget) = !decide (tk.tickTarget ≤ tick) := by
  by_cases h : tk.tickTarget ≤ tick
  · simp [h, Nat.not_lt.mpr h]
  · simp [h, Nat.lt_of_not_le h]

theorem sweep_executed_append_remaining_perm (tick : Nat) (l : List Task) :
    List.Perm ((sweep tick l).executed ++ (sweep tick l).remaining) l := by
  rw [sweep_executed, sweep_remaining,
    List.filter_congr (fun tk _ => decide_lt_eq_not_decide_le tick tk)]
  exact List.filter_append_perm _ l

theorem schedInv_step (s : SchedState) (e : SchedEvent) (h : schedInv s) :
    schedInv (schedStep s e) := by
  obtain ⟨hnd, hlt⟩ := h
  cases e with
  | schedule d th =>
    constructor
    · have heq :
          ((s.executedLog ++ (s.tasks ++ [(⟨s.nextId, s.tickCounter + d, th⟩ : Task)])).map Task.id)
            = ((s.executedLog ++ s.tasks).map Task.id) ++ [s.nextId] := by
        simp
      have hnotin : s.nextId ∉ (s.executedLog ++ s.tasks).map Task.id := by
        intro hmem
        obtain ⟨tk, htk, hid⟩ := List.mem_map.mp hmem
        exact Nat.lt_irrefl _ (hid ▸ hlt tk htk)
      simp only [schedStep]
      rw [heq]
      refine List.Nodup.append hnd (List.nodup_singleton _) ?_
      intro x hx hx2
      exact hnotin (List.mem_singleton.mp hx2 ▸ hx)
    · intro tk htk
      simp only [schedStep] at htk ⊢
      rcases List.mem_append.mp htk with h1 | h2
      · exact Nat.lt_succ_of_lt (hlt tk (List.mem_append_left _ h1))
      · rcases List.mem_append.mp h2 with h3 | h4
        · exact Nat.lt_succ_of_lt (hlt tk (List.mem_append_right _ h3))
        · rw [List.mem_singleton.mp h4]
          exact Nat.lt_succ_self _
  | endTick =>
    have hperm :
        List.Perm
          ((s.executedLog ++ (sweep (s.tickCounter + 1) s.tasks).executed) ++
            (sweep (s.tickCounter + 1) s.tasks).remaining)
          (s.executedLog ++ s.tasks) := by
      rw [List.append_assoc]
      exact List.Perm.append_left _
        (sweep_executed_append_remaining_perm (s.tickCounter + 1) s.tasks)
    constructor
    · simp only [schedStep]
      exact ((hperm.map Task.id).symm.nodup) hnd
    · intro tk htk
      simp only [schedStep] at htk ⊢
      exact hlt tk (hperm.mem_iff.mp htk)

theorem schedInv_run (es : List SchedEvent) (s : SchedState) (h : schedInv s) :
    schedInv (schedRun s es) := by
  induction es generalizing s with
  | nil => exact h
  | cons e rest ih => exact ih (schedStep s e) (schedInv_step s e h)

/-- C9: over a whole run (any interleaving of `scheduleTask` calls and
server ticks from a fresh state), every scheduled task executes at most
once — the executed-task ids are distinct; the tick counter never
decreases under any step; and after a tick's sweep no due task survives in
the queue (so consecutive due entries are all executed by the same sweep
and a removed task never runs again). -/
theorem c9_at_most_once (es : List SchedEvent) :
    ((schedRun initSched es).executedLog.map Task.id).Nodup ∧
    (∀ e, (schedRun initSched es).tickCounter ≤
      (schedStep (schedRun initSched es) e).tickCounter) ∧
    (∀ tk ∈ (schedRun initSched (es ++ [SchedEvent.endTick])).tasks,
      (schedRun initSched (es ++ [SchedEvent.endTick])).tickCounter < tk.tickTarget) := by
  have hinv : schedInv (schedRun initSched es) :=
    schedInv_run es initSched (by simp [schedInv, initSched])
  refine ⟨?_, ?_, ?_⟩
  · have h := hinv.1
    rw [List.map_append] at h
    exact h.of_append_left
  · intro e
    cases e with
    | schedule d th => simp [schedStep]
    | endTick =>
      simp only [schedStep]
      exact Nat.le_succ _
  · intro tk htk
    have hrun : schedRun initSched (es ++ [SchedEvent.endTick]) =
        schedStep (schedRun initSched es) SchedEvent.endTick := by
      simp [schedRun, List.foldl_append]
    rw [hrun] at htk ⊢
    have h := sweep_remaining ((schedRun initSched es).tickCounter + 1)
      (schedRun initSched es).tasks
    simp only [schedStep] at htk ⊢
    rw [h] at htk
    exact of_decide_eq_true (List.mem_filter.mp htk).2

theorem c1_witness :
    (⟨2, 5, false⟩ : Task) ∈
      (schedStep (⟨0, [⟨1, 1, true⟩, ⟨2, 5, false⟩], [], 3⟩ : SchedState)
        SchedEvent.endTick).tasks ∧
    0 + 1 < (⟨2, 5, false⟩ : Task).tickTarget :=
  ⟨by decide,
   (c1_tick_sweep ⟨0, [⟨1, 1, true⟩, ⟨2, 5, false⟩], [], 3⟩).2.2.2.2.1
     ⟨2, 5, false⟩ (by decide)⟩

theorem c9_witness :
    (⟨0, 2, false⟩ : Task) ∈
      (schedRun initSched ([SchedEvent.schedule 2 false] ++ [SchedEvent.endTick])).tasks ∧
    (schedRun initSched
        ([SchedEvent.schedule 2 false] ++ [SchedEvent.endTick])).tickCounter <
      (⟨0, 2, false⟩ : Task).tickTarget :=
  ⟨by decide,
   (c9_at_most_once [SchedEvent.schedule 2 false]).2.2 ⟨0, 2, false⟩ (by decide)⟩

/-! ## Load / parse / fallback (C3) -/

/-- C3 counterexample: the claim asserts that a null result from converting
the loaded value logs a warning; but for `loadData` returning JS `null` the
code's `JSON.parse(JSON.stringify(raw)) || {}` falls through the `|| {}`
without throwing, so the state is initialised to `{}` with no warning
logged (first component `false`). -/
theorem c3_counterexample : loadInit JsVal.vnull = (false, JsVal.vobj []) := rfl

/-- C3 (amended): if converting the loaded value throws or yields a falsy
(null/absent) result, initialization still ends with the empty mapping `{}`
and never throws; a warning is logged exactly when the parse throws — a
null parse result falls back to `{}` silently. -/
theorem c3_amended (raw : JsVal)
    (h : jsonRoundTrip raw = none ∨ jsonRoundTrip raw = some JsVal.vnull) :
    (loadInit raw).2 = JsVal.vobj [] ∧
    (jsonRoundTrip raw = none → (loadInit raw).1 = true) ∧
    (jsonRoundTrip raw = some JsVal.vnull → (loadInit raw).1 = false) := by
  rcases h with h | h <;> simp [loadInit, h, truthyJs]

theorem c3_witness :
    (jsonRoundTrip JsVal.vundefined = none ∨
      jsonRoundTrip JsVal.vundefined = some JsVal.vnull) ∧
    ((loadInit JsVal.vundefined).2 = JsVal.vobj [] ∧
     (jsonRoundTrip JsVal.vundefined = none → (loadInit JsVal.vundefined).1 = true) ∧
     (jsonRoundTrip JsVal.vundefined = some JsVal.vnull →
       (loadInit JsVal.vundefined).1 = false)) :=
  ⟨Or.inl rfl, c3_amended JsVal.vundefined (Or.inl rfl)⟩

/-! ## Version selector (C7, C8) -/

theorem matchesFrom_cons_succ (pk cp : String) (v : VersionEntry)
    (rest : List VersionEntry) (i : Nat) :
    matchesFrom pk cp (v :: rest) (i + 1) = matchesFrom pk cp rest i := rfl

theorem detectFrom_cons (cp pk : String) (v : VersionEntry)
    (rest : List VersionEntry) (idx cur : Nat) :
    detectFrom cp pk (v :: rest) idx cur =
      detectFrom cp pk rest (idx + 1) (if entryMatches pk cp v then idx else cur) := by
  cases hl : lookupKey v.pages pk with
  | none => simp [detectFrom, entryMatches, hl]
  | some href =>
    by_cases he : strEndsWith cp (stripTrailingSlash ("/" ++ href)) <;>
      simp [detectFrom, entryMatches, hl, he]

theorem detectFrom_no_match (cp pk : String) (entries : List VersionEntry)
    (h : ∀ i, matchesFrom pk cp entries i = false) :
    ∀ idx cur, detectFrom cp pk entries idx cur = cur := by
  induction entries with
  | nil => intro idx cur; rfl
  | cons v rest ih =>
    intro idx cur
    have h0 : entryMatches pk cp v = false := h 0
    rw [detectFrom_cons, h0]
    exact ih (fun i => h (i + 1)) (idx + 1) cur

theorem detectFrom_last_match (cp pk : String) (entries : List VersionEntry)
    (h : ∃ j, matchesFrom pk cp entries j = true) :
    ∀ idx cur, ∃ k, matchesFrom pk cp entries k = true ∧
      detectFrom cp pk entries idx cur = idx + k ∧
      ∀ l, k < l → matchesFrom pk cp entries l = false := by
  induction entries with
  | nil =>
    obtain ⟨j, hj⟩ := h
    simp [matchesFrom] at hj
  | cons v rest ih =>
    intro idx cur
    by_cases hr : ∃ j, matchesFrom pk cp rest j = true
    · obtain ⟨k', h1, h2, h3⟩ := ih hr (idx + 1) (if entryMatches pk cp v then idx else cur)
      refine ⟨k' + 1, h1, ?_, ?_⟩
      · rw [detectFrom_cons, h2]
        omega
      · intro l hl
        cases l with
        | zero => omega
        | succ l₂ => exact h3 l₂ (by omega)
    · have hrf : ∀ j, matchesFrom pk cp rest j = false := by
        intro j
        have := not_exists.mp hr j
        simpa using this
      obtain ⟨j, hj⟩ := h
      have hv : entryMatches pk cp v = true := by
        cases j with
        | zero => exact hj
        | succ j₂ =>
          rw [matchesFrom_cons_succ] at hj
          rw [hrf j₂] at hj
          cases hj
      refine ⟨0, hv, ?_, ?_⟩
      · rw [detectFrom_cons, hv]
        simp [detectFrom_no_match cp pk rest hrf (idx + 1) idx]
      · intro l hl
        cases l with
        | zero => omega
        | succ l₂ => exact hrf l₂

/-- C7 counterexample: on the v1.0.0 api page both table entries' page
paths are suffixes of the location path — `"/index.html"` (entry 0) and
`"/v1.0.0/index.html"` (entry 1) — so "the entry whose page path is a
suffix" is not unique, and the selected index is 1, not the index 0 of the
first suffix-matching entry. -/
theorem c7_counterexample :
    matchesAt "api" "/docs/v1.0.0/index.html" 0 = true ∧
    matchesAt "api" "/docs/v1.0.0/index.html" 1 = true ∧
    selectedIndex "api" "/docs/v1.0.0/index.html" = 1 := by
  refine ⟨by decide, by decide, by decide⟩

/-- C7 (amended): the dropdown's selected index is the index of the LAST
version-table entry whose page path for the page key (prefixed with "/",
trailing slashes stripped) is a suffix of the location path (trailing
slashes stripped); when no entry's path is such a suffix the selected
index is 0. -/
theorem c7_amended (pk path : String) :
    ((∀ i, matchesAt pk path i = false) → selectedIndex pk path = 0) ∧
    (∀ i, matchesAt pk path i = true →
      matchesAt pk path (selectedIndex pk path) = true ∧
      i ≤ selectedIndex pk path) := by
  constructor
  · intro h
    exact detectFrom_no_match (stripTrailingSlash path) pk VERSION_CONFIG h 0 0
  · intro i hi
    obtain ⟨k, h1, h2, h3⟩ :=
      detectFrom_last_match (stripTrailingSlash path) pk VERSION_CONFIG ⟨i, hi⟩ 0 0
    have hsel : selectedIndex pk path = k := by
      rw [selectedIndex, h2]
      omega
    refine ⟨?_, ?_⟩
    · rw [hsel]
      exact h1
    · rw [hsel]
      by_contra hlt
      push_neg at hlt
      have hfalse := h3 i hlt
      rw [matchesAt] at hi
      rw [hfalse] at hi
      cases hi

theorem c7_witness :
    matchesAt "api" "/v1.0.0/index.html" 1 = true ∧
    (matchesAt "api" "/v1.0.0/index.html"
        (selectedIndex "api" "/v1.0.0/index.html") = true ∧
      1 ≤ selectedIndex "api" "/v1.0.0/index.html") :=
  ⟨by decide, (c7_amended "api" "/v1.0.0/index.html").2 1 (by decide)⟩

theorem findById_eq_none (entries : List VersionEntry) (s : String)
    (h : ∀ v ∈ entries, v.id ≠ s) : findById entries s = none := by
  induction entries with
  | nil => rfl
  | cons v rest ih =>
    unfold findById
    rw [if_neg (h v (List.mem_cons_self v rest))]
    exact ih (fun w hw => h w (List.mem_cons_of_mem _ hw))

/-- C8: when the dropdown selection changes, the listener looks up the
entry whose id equals the selected value; if it exists,
`window.location.href` is set to exactly that entry's stored relative path
for the current page key (`lookupKey v.pages pk`, which is `none` when the
entry defines no path for this key, in which case the listener returns
without navigating); if no entry has the selected id the location is left
unchanged (`handleChange` yields `none`, modelling "no navigation"). -/
theorem c8_change_navigation (s pk : String) :
    (∀ v ∈ VERSION_CONFIG, v.id = s → handleChange s pk = lookupKey v.pages pk) ∧
    ((∀ v ∈ VERSION_CONFIG, v.id ≠ s) → handleChange s pk = none) := by
  constructor
  · intro v hv hid
    subst hid
    have hcase : v = versionMain ∨ v = versionV100 := by
      simpa [VERSION_CONFIG] using hv
    rcases hcase with h | h <;> subst h <;> rfl
  · intro h
    unfold handleChange
    rw [findById_eq_none VERSION_CONFIG s h]

theorem c8_witness :
    versionV100 ∈ VERSION_CONFIG ∧ versionV100.id = "v1.0.0" ∧
    handleChange "v1.0.0" "inspector" = lookupKey versionV100.pages "inspector" ∧
    lookupKey versionV100.pages "inspector" = some "v1.0.0/inspector.html" :=
  ⟨by simp [VERSION_CONFIG], rfl,
   (c8_change_navigation "v1.0.0" "inspector").1 versionV100
     (by simp [VERSION_CONFIG]) rfl, rfl⟩

/-! ## spawn-kit step lemmas (C2, C6) -/

theorem truthyNum_eq_isSome (o : Option Int) (h : ∀ v, o = some v → v ≠ 0) :
    truthyNum o = o.isSome := by
  cases o with
  | none => rfl
  | some v =>
    simp [truthyNum]
    exact h v rfl

theorem kitExecute_lookup_ne (m : KitMap) (b : Bool) (q : String) (now : Int)
    (p : String) (h : q ≠ p) :
    lookupKey (kitExecute m b q now).1 p = lookupKey m p := by
  cases b with
  | false => rfl
  | true =>
    cases ht : truthyNum (lookupKey m q) with
    | true => simp [kitExecute, ht]
    | false => simp [kitExecute, ht, lookupKey_setKey_ne _ _ _ _ (Ne.symm h)]

theorem kitExecute_lookup_grant (m : KitMap) (p : String) (now : Int)
    (h : truthyNum (lookupKey m p) = false) :
    lookupKey (kitExecute m true p now).1 p = some now := by
  simp [kitExecute, h, lookupKey_setKey_self]

theorem kitExecute_fst_already (m : KitMap) (p : String) (now : Int)
    (h : truthyNum (lookupKey m p) = true) :
    (kitExecute m true p now).1 = m := by
  simp [kitExecute, h]

theorem kitresetExecute_lookup_ne (m : KitMap) (q p : String) (h : q ≠ p) :
    lookupKey (kitresetExecute m q).1 p = lookupKey m p := by
  cases ht : truthyNum (lookupKey m q) with
  | true => simp [kitresetExecute, ht, lookupKey_delKey_ne _ _ _ (Ne.symm h)]
  | false => simp [kitresetExecute, ht]

theorem kitresetExecute_lookup_self (m : KitMap) (p : String)
    (hm : ∀ v, lookupKey m p = some v → v ≠ 0) :
    lookupKey (kitresetExecute m p).1 p = none := by
  cases ht : truthyNum (lookupKey m p) with
  | true => simp [kitresetExecute, ht, lookupKey_delKey_self]
  | false =>
    have hsome := truthyNum_eq_isSome (lookupKey m p) hm
    rw [ht] at hsome
    simp [kitresetExecute, ht]
    exact Option.not_isSome_iff_eq_none.mp (by rw [← hsome]; simp)

theorem kitStep_pValNonzero (m : KitMap) (e : KitEvent) (p : String)
    (hm : ∀ v, lookupKey m p = some v → v ≠ 0)
    (he : kitTimeNonzero e = true) :
    ∀ v, lookupKey (kitStep m e).1 p = some v → v ≠ 0 := by
  intro v hv
  cases e with
  | kit b q now =>
    by_cases hq : q = p
    · subst hq
      cases b with
      | false => exact hm v hv
      | true =>
        cases ht : truthyNum (lookupKey m q) with
        | true =>
          rw [show kitStep m (KitEvent.kit true q now) = kitExecute m true q now from rfl,
            kitExecute_fst_already m q now ht] at hv
          exact hm v hv
        | false =>
          rw [show kitStep m (KitEvent.kit true q now) = kitExecute m true q now from rfl,
            kitExecute_lookup_grant m q now ht] at hv
          have : v = now := by injection hv with h; exact h.symm
          subst this
          simpa [kitTimeNonzero] using he
    · rw [show kitStep m (KitEvent.kit b q now) = kitExecute m b q now from rfl,
        kitExecute_lookup_ne m b q now p hq] at hv
      exact hm v hv
  | kitreset q =>
    by_cases hq : q = p
    · subst hq
      rw [show kitStep m (KitEvent.kitreset q) = kitresetExecute m q from rfl,
        kitresetExecute_lookup_self m q hm] at hv
      cases hv
    · rw [show kitStep m (KitEvent.kitreset q) = kitresetExecute m q from rfl,
        kitresetExecute_lookup_ne m q p hq] at hv
      exact hm v hv

theorem hasGive_kitExecute (m : KitMap) (b : Bool) (p : String) (now : Int) :
    hasGive (kitExecute m b p now).2 = (b && !truthyNum (lookupKey m p)) := by
  cases b with
  | false => rfl
  | true =>
    cases ht : truthyNum (lookupKey m p) with
    | true => simp [kitExecute, ht, hasGive, isGiveEff]
    | false => simp [kitExecute, ht, hasGive, starterKit, isGiveEff]

theorem hasGive_kitresetExecute (m : KitMap) (t : String) :
    hasGive (kitresetExecute m t).2 = false := by
  cases ht : truthyNum (lookupKey m t) with
  | true => simp [kitresetExecute, ht, hasGive, isGiveEff]
  | false => simp [kitresetExecute, ht, hasGive, isGiveEff]

theorem claimedNotReset_cons (p : String) (e : KitEvent) (es : List KitEvent) :
    claimedNotReset p (e :: es) ↔
      ((∃ now, e = KitEvent.kit true p now) ∧ KitEvent.kitreset p ∉ es) ∨
      claimedNotReset p es := by
  constructor
  · rintro ⟨es₁, now, es₂, heq, hnr⟩
    cases es₁ with
    | nil =>
      simp only [List.nil_append] at heq
      injection heq with h1 h2
      exact Or.inl ⟨⟨now, h1⟩, h2 ▸ hnr⟩
    | cons a es₃ =>
      simp only [List.cons_append] at heq
      injection heq with h1 h2
      exact Or.inr ⟨es₃, now, es₂, h2, hnr⟩
  · rintro (⟨⟨now, he⟩, hnr⟩ | ⟨es₁, now, es₂, heq, hnr⟩)
    · exact ⟨[], now, es, by rw [he, List.nil_append], hnr⟩
    · exact ⟨e :: es₁, now, es₂, by rw [heq, List.cons_append], hnr⟩

theorem kitRun_cons (m : KitMap) (e : KitEvent) (es : List KitEvent) :
    kitRun m (e :: es) = kitRun (kitStep m e).1 es := rfl

theorem kit_present_run (p : String) (es : List KitEvent) :
    ∀ m : KitMap, (∀ v, lookupKey m p = some v → v ≠ 0) →
      (∀ e ∈ es, kitTimeNonzero e = true) →
      ((lookupKey (kitRun m es) p).isSome ↔
        claimedNotReset p es ∨
          ((lookupKey m p).isSome ∧ KitEvent.kitreset p ∉ es)) := by
  induction es with
  | nil =>
    intro m _ _
    simp [kitRun, claimedNotReset]
  | cons e rest ih =>
    intro m hm hpos
    have hhead := hpos e (List.mem_cons_self e rest)
    have hpos' : ∀ e' ∈ rest, kitTimeNonzero e' = true :=
      fun e' h => hpos e' (List.mem_cons_of_mem _ h)
    have hm' := kitStep_pValNonzero m e p hm hhead
    rw [kitRun_cons, ih (kitStep m e).1 hm' hpos', claimedNotReset_cons]
    cases e with
    | kit b q now =>
      have hmem : KitEvent.kitreset p ∉ KitEvent.kit b q now :: rest ↔
          KitEvent.kitreset p ∉ rest := by simp
      by_cases hq : q = p
      · subst hq
        cases b with
        | false =>
          have hstep : (kitStep m (KitEvent.kit false q now)).1 = m := rfl
          rw [hstep, hmem]
          simp
        | true =>
          cases ht : truthyNum (lookupKey m q) with
          | true =>
            have hstep : (kitStep m (KitEvent.kit true q now)).1 = m :=
              kitExecute_fst_already m q now ht
            have hsome : (lookupKey m q).isSome = true := by
              rw [← truthyNum_eq_isSome (lookupKey m q) hm]
              exact ht
            rw [hstep, hmem]
            simp [hsome]
            tauto
          | false =>
            have hstep : lookupKey (kitStep m (KitEvent.kit true q now)).1 q = some now :=
              kitExecute_lookup_grant m q now ht
            have hnone : lookupKey m q = none := by
              have hsome := truthyNum_eq_isSome (lookupKey m q) hm
              rw [ht] at hsome
              exact Option.not_isSome_iff_eq_none.mp (by rw [← hsome]; simp)
            rw [hstep, hmem]
            simp [hnone]
            tauto
      · have hstep : lookupKey (kitStep m (KitEvent.kit b q now)).1 p = lookupKey m p :=
          kitExecute_lookup_ne m b q now p hq
        rw [hstep, hmem]
        simp only [KitEvent.kit.injEq]
        simp [hq]
    | kitreset q =>
      by_cases hq : q = p
      · subst hq
        have hstep : lookupKey (kitStep m (KitEvent.kitreset q)).1 q = none :=
          kitresetExecute_lookup_self m q hm
        have hmem : KitEvent.kitreset q ∈ KitEvent.kitreset q :: rest := by simp
        rw [hstep]
        simp [hmem]
      · have hstep : lookupKey (kitStep m (KitEvent.kitreset q)).1 p = lookupKey m p :=
          kitresetExecute_lookup_ne m q p hq
        have hmem : KitEvent.kitreset p ∉ KitEvent.kitreset q :: rest ↔
            KitEvent.kitreset p ∉ rest := by simp [Ne.symm hq]
        have hnotp : ¬∃ now', KitEvent.kitreset q = KitEvent.kit true p now' := by
          rintro ⟨now', hh⟩
          cases hh
        rw [hstep, hmem]
        simp [hnotp]

/-! ## player-tracker run lemmas (C6) -/

theorem trackerStep_lookup_self (m : ActivityMap) (ev : CmdEvent) :
    (lookupKey (trackerStep m ev).1 ev.playerName).isSome = true := by
  cases hl : lookupKey m ev.playerName with
  | none => simp [trackerStep, hl, lookupKey_setKey_self]
  | some a => simp [trackerStep, hl, lookupKey_setKey_self]

theorem trackerStep_lookup_ne (m : ActivityMap) (ev : CmdEvent) (p : String)
    (h : p ≠ ev.playerName) :
    lookupKey (trackerStep m ev).1 p = lookupKey m p := by
  cases hl : lookupKey m ev.playerName with
  | none =>
    simp [trackerStep, hl, lookupKey_setKey_ne _ _ _ _ h]
  | some a =>
    simp [trackerStep, hl, lookupKey_setKey_ne _ _ _ _ h]

theorem trackerRun_cons (m : ActivityMap) (ev : CmdEvent) (evs : List CmdEvent) :
    trackerRun m (ev :: evs) = trackerRun (trackerStep m ev).1 evs := rfl

theorem tracker_present_run (p : String) (evs : List CmdEvent) :
    ∀ m : ActivityMap,
      ((lookupKey (trackerRun m evs) p).isSome ↔
        (lookupKey m p).isSome ∨ ∃ ev ∈ evs, ev.playerName = p) := by
  induction evs with
  | nil =>
    intro m
    simp [trackerRun]
  | cons ev rest ih =>
    intro m
    rw [trackerRun_cons, ih (trackerStep m ev).1]
    by_cases hq : ev.playerName = p
    · subst hq
      have hself := trackerStep_lookup_self m ev
      simp [hself]
    · have hstep := trackerStep_lookup_ne m ev p (fun h => hq h.symm)
      rw [hstep]
      simp [hq]

/-- C6: starting from a fresh empty mapping and with real (nonzero)
`Date.now()` timestamps, a player name is a key of spawn-kit's `received`
mapping exactly when that player issued a player-sent `/kit` with no later
`/kitreset` for them, and a player name is a key of player-tracker's
`activity` mapping exactly when some command-execute event for that player
was observed. -/
theorem c6_key_iff_event (es : List KitEvent) (evs : List CmdEvent) (p : String)
    (hpos : ∀ e ∈ es, kitTimeNonzero e = true) :
    ((lookupKey (kitRun [] es) p).isSome ↔ claimedNotReset p es) ∧
    ((lookupKey (trackerRun [] evs) p).isSome ↔ ∃ ev ∈ evs, ev.playerName = p) := by
  constructor
  · have h := kit_present_run p es [] (by simp [lookupKey]) hpos
    simpa [lookupKey] using h
  · have h := tracker_present_run p evs []
    simpa [lookupKey] using h

theorem c6_witness :
    (∀ e ∈ [KitEvent.kit true "alice" 5, KitEvent.kitreset "bob"],
      kitTimeNonzero e = true) ∧
    (((lookupKey (kitRun [] [KitEvent.kit true "alice" 5, KitEvent.kitreset "bob"])
        "alice").isSome ↔
      claimedNotReset "alice" [KitEvent.kit true "alice" 5, KitEvent.kitreset "bob"]) ∧
     ((lookupKey (trackerRun [] [⟨"alice", "/sethome", 3⟩]) "alice").isSome ↔
      ∃ ev ∈ [(⟨"alice", "/sethome", 3⟩ : CmdEvent)], ev.playerName = "alice")) :=
  ⟨by decide,
   c6_key_iff_event [KitEvent.kit true "alice" 5, KitEvent.kitreset "bob"]
     [⟨"alice", "/sethome", 3⟩] "alice" (by decide)⟩

theorem resetCountTo_cons (p : String) (e : KitEvent) (es : List KitEvent) :
    resetCountTo p (e :: es) =
      resetCountTo p es + (if e = KitEvent.kitreset p then 1 else 0) := by
  simp [resetCountTo, List.countP_cons]

theorem kitGrantsTo_cons (p : String) (m : KitMap) (e : KitEvent)
    (es : List KitEvent) :
    kitGrantsTo p m (e :: es) =
      (match e with
       | KitEvent.kit _ q _ => if q = p ∧ hasGive (kitStep m e).2 then 1 else 0
       | KitEvent.kitreset _ => 0) + kitGrantsTo p (kitStep m e).1 es := rfl

theorem kitGrantsTo_le (p : String) (es : List KitEvent) :
    ∀ m : KitMap, (∀ v, lookupKey m p = some v → v ≠ 0) →
      (∀ e ∈ es, kitTimeNonzero e = true) →
      kitGrantsTo p m es ≤
        (if truthyNum (lookupKey m p) then 0 else 1) + resetCountTo p es := by
  induction es with
  | nil =>
    intro m _ _
    simp [kitGrantsTo, resetCountTo]
  | cons e rest ih =>
    intro m hm hpos
    have hhead := hpos e (List.mem_cons_self e rest)
    have hpos' : ∀ e' ∈ rest, kitTimeNonzero e' = true :=
      fun e' h => hpos e' (List.mem_cons_of_mem _ h)
    have hm' := kitStep_pValNonzero m e p hm hhead
    have ihx := ih (kitStep m e).1 hm' hpos'
    rw [kitGrantsTo_cons, resetCountTo_cons]
    cases e with
    | kit b q now =>
      by_cases hq : q = p
      · subst hq
        cases b with
        | false =>
          have hg : hasGive (kitStep m (KitEvent.kit false q now)).2 = false := by
            rw [show (kitStep m (KitEvent.kit false q now)).2
                = (kitExecute m false q now).2 from rfl, hasGive_kitExecute]
            rfl
          have hstep : (kitStep m (KitEvent.kit false q now)).1 = m := rfl
          rw [hstep] at ihx
          simp [hg, hstep]
          try omega
        | true =>
          cases ht : truthyNum (lookupKey m q) with
          | true =>
            have hg : hasGive (kitStep m (KitEvent.kit true q now)).2 = false := by
              rw [show (kitStep m (KitEvent.kit true q now)).2
                  = (kitExecute m true q now).2 from rfl, hasGive_kitExecute, ht]
              rfl
            have hstep : (kitStep m (KitEvent.kit true q now)).1 = m :=
              kitExecute_fst_already m q now ht
            rw [hstep] at ihx
            have hihx : kitGrantsTo q m rest ≤ resetCountTo q rest := by
              rw [ht] at ihx
              simpa using ihx
            simp [hg, hstep]
            try omega
          | false =>
            have hg : hasGive (kitStep m (KitEvent.kit true q now)).2 = true := by
              rw [show (kitStep m (KitEvent.kit true q now)).2
                  = (kitExecute m true q now).2 from rfl, hasGive_kitExecute, ht]
              rfl
            have hnz : now ≠ 0 := by simpa [kitTimeNonzero] using hhead
            have htr : truthyNum (lookupKey (kitStep m (KitEvent.kit true q now)).1 q)
                = true := by
              rw [show (kitStep m (KitEvent.kit true q now)).1
                  = (kitExecute m true q now).1 from rfl,
                kitExecute_lookup_grant m q now ht]
              simp [truthyNum, hnz]
            have hihx : kitGrantsTo q (kitStep m (KitEvent.kit true q now)).1 rest ≤
                resetCountTo q rest := by
              rw [htr] at ihx
              simpa using ihx
            simp [hg, ht]
            try omega
      · have hstep : lookupKey (kitStep m (KitEvent.kit b q now)).1 p = lookupKey m p :=
          kitExecute_lookup_ne m b q now p hq
        rw [hstep] at ihx
        simp [hq]
        try omega
    | kitreset q =>
      by_cases hq : q = p
      · subst hq
        have htr : truthyNum (lookupKey (kitStep m (KitEvent.kitreset q)).1 q)
            = false := by
          rw [show (kitStep m (KitEvent.kitreset q)).1
              = (kitresetExecute m q).1 from rfl,
            kitresetExecute_lookup_self m q hm]
          rfl
        have hihx : kitGrantsTo q (kitStep m (KitEvent.kitreset q)).1 rest ≤
            1 + resetCountTo q rest := by
          rw [htr] at ihx
          simpa using ihx
        simp
        try omega
      · have hstep : lookupKey (kitStep m (KitEvent.kitreset q)).1 p = lookupKey m p :=
          kitresetExecute_lookup_ne m q p hq
        rw [hstep] at ihx
        simp [hq]
        try omega

/-- C2 counterexample: the standalone `/kit` registered by the template
mod keeps no per-player state; two consecutive invocations by the same
player both succeed (return 1) and both grant the full eight item stacks,
so after a successful grant a later invocation still grants items. -/
theorem c2_counterexample :
    (standaloneKitRun [some "alice", some "alice"]).map (fun r => r.2) = [1, 1] ∧
    (standaloneKitRun [some "alice", some "alice"]).map
      (fun r => (r.1.filter isGiveEff).length) = [8, 8] :=
  ⟨rfl, rfl⟩

/-- C2 (amended): the spawn-kit mod's `/kit` grants its items at most once
per player name until a `/kitreset` clears it (over any event trace with
real nonzero timestamps, the number of grants to a player is at most one
more than the number of kitreset invocations naming them, and after a
reset one further grant is possible); the template mod's `/js kit` and
standalone `/kit` keep no per-player state and grant items on every
invocation by a player. -/
theorem c2_amended (es : List KitEvent) (p : String)
    (hpos : ∀ e ∈ es, kitTimeNonzero e = true) :
    kitGrantsTo p [] es ≤ 1 + resetCountTo p es ∧
    (∀ (m : KitMap) (now : Int), (∀ v, lookupKey m p = some v → v ≠ 0) →
      hasGive (kitStep (kitStep m (KitEvent.kitreset p)).1
        (KitEvent.kit true p now)).2 = true) ∧
    (∀ q : String, hasGive (standaloneKitExecute (some q)).1 = true ∧
      hasGive (jsKitExecute (some q)).1 = true) := by
  refine ⟨?_, ?_, ?_⟩
  · have h := kitGrantsTo_le p es [] (by simp [lookupKey]) hpos
    simpa [truthyNum, lookupKey] using h
  · intro m now hm
    have hnone : lookupKey (kitStep m (KitEvent.kitreset p)).1 p = none :=
      kitresetExecute_lookup_self m p hm
    rw [show (kitStep (kitStep m (KitEvent.kitreset p)).1 (KitEvent.kit true p now)).2
        = (kitExecute (kitStep m (KitEvent.kitreset p)).1 true p now).2 from rfl,
      hasGive_kitExecute, hnone]
    rfl
  · intro q
    exact ⟨rfl, rfl⟩

theorem c2_witness :
    (∀ e ∈ [KitEvent.kit true "alice" 5, KitEvent.kit true "alice" 7],
      kitTimeNonzero e = true) ∧
    kitGrantsTo "alice" [] [KitEvent.kit true "alice" 5, KitEvent.kit true "alice" 7] ≤
      1 + resetCountTo "alice" [KitEvent.kit true "alice" 5, KitEvent.kit true "alice" 7] :=
  ⟨by decide,
   (c2_amended [KitEvent.kit true "alice" 5, KitEvent.kit true "alice" 7] "alice"
     (by decide)).1⟩

/-! ## Mutation / write-back discipline (C4) -/

/-- C4 counterexample: the template's `/js home set` handler mutates the
in-memory `homeData` map (adds the sender's position under their uuid) but
its effect list contains no `saveData` call — `main.js` never persists any
of its mappings. -/
theorem c4_counterexample :
    (jsHomeSet [] (some ("uuid-1", ⟨1, 2, 3⟩))).1 = [("uuid-1", ⟨1, 2, 3⟩)] ∧
    ∀ e ∈ (jsHomeSet [] (some ("uuid-1", ⟨1, 2, 3⟩))).2.1, isSaveEff e = false := by
  refine ⟨rfl, ?_⟩
  intro e he
  simp [jsHomeSet] at he
  subst he
  rfl

/-- C4 (amended): in the v1.0.0 example mods (spawn-kit, player-tracker,
teleport-home) every command/event handler that mutates its player mapping
emits a `saveData` of the resulting mapping under the mod's key in the
same invocation; the template mod (`main.js`) keeps its mappings purely
in memory — its handlers (e.g. `/js home set`, `/js daily`) mutate without
ever calling `saveData`. -/
theorem c4_amended :
    (∀ (m : KitMap) (b : Bool) (p : String) (now : Int),
      (kitExecute m b p now).1 ≠ m →
        Effect.save "kit_received" (kitExecute m b p now).1 ∈ (kitExecute m b p now).2) ∧
    (∀ (m : KitMap) (t : String),
      (kitresetExecute m t).1 ≠ m →
        Effect.save "kit_received" (kitresetExecute m t).1 ∈ (kitresetExecute m t).2) ∧
    (∀ (m : ActivityMap) (ev : CmdEvent),
      Effect.save "player_activity" (trackerStep m ev).1 ∈ (trackerStep m ev).2) ∧
    (∀ (m : HomeMap) (pl : Option (String × PlayerPos)) (a : Option String),
      (homeExecute m pl a).1 ≠ m →
        Effect.save "homes" (homeExecute m pl a).1 ∈ (homeExecute m pl a).2) ∧
    (∀ (m : List (String × BlockPos)) (pl : Option (String × BlockPos)),
      ∀ e ∈ (jsHomeSet m pl).2.1, isSaveEff e = false) ∧
    (∀ (m : List (String × Int)) (pl : Option String) (now : Int),
      ∀ e ∈ (jsDaily m pl now).2.1, isSaveEff e = false) := by
  refine ⟨?_, ?_, ?_, ?_, ?_, ?_⟩
  · intro m b p now h
    cases b with
    | false => exact absurd rfl h
    | true =>
      cases ht : truthyNum (lookupKey m p) with
      | true => exact absurd (kitExecute_fst_already m p now ht) h
      | false => simp [kitExecute, ht, starterKit]
  · intro m t h
    cases ht : truthyNum (lookupKey m t) with
    | true => simp [kitresetExecute, ht]
    | false => exact absurd (by simp [kitresetExecute, ht]) h
  · intro m ev
    cases hl : lookupKey m ev.playerName with
    | none => simp [trackerStep, hl]
    | some a => simp [trackerStep, hl]
  · intro m pl a h
    cases pl with
    | none => exact absurd rfl h
    | some pr =>
      obtain ⟨name, info⟩ := pr
      by_cases h1 : ((a.map String.toLower).getD "tp") = "set"
      · simp [homeExecute, h1]
      · by_cases h2 : ((a.map String.toLower).getD "tp") = "delete"
        · cases hl : lookupKey m name with
          | none => exact absurd (by simp [homeExecute, h1, h2, hl]) h
          | some hh => simp [homeExecute, h1, h2, hl]
        · by_cases h3 : ((a.map String.toLower).getD "tp") = "list"
          · cases hl : lookupKey m name with
            | none => exact absurd (by simp [homeExecute, h1, h2, h3, hl]) h
            | some hh => exact absurd (by simp [homeExecute, h1, h2, h3, hl]) h
          · cases hl : lookupKey m name with
            | none => exact absurd (by simp [homeExecute, h1, h2, h3, hl]) h
            | some hh => exact absurd (by simp [homeExecute, h1, h2, h3, hl]) h
  · intro m pl e he
    cases pl with
    | none => simp [jsHomeSet] at he
    | some pr =>
      obtain ⟨uuid, pos⟩ := pr
      simp [jsHomeSet] at he
      subst he
      rfl
  · intro m pl now e he
    cases pl with
    | none => simp [jsDaily] at he
    | some uuid =>
      cases hl : lookupKey m uuid with
      | none =>
        simp [jsDaily, hl] at he
        rcases he with he | he | he <;> (subst he; rfl)
      | some last =>
        by_cases hc : now - last < DAILY_COOLDOWN_MS
        · simp [jsDaily, hl, hc] at he
          subst he
          rfl
        · simp [jsDaily, hl, hc] at he
          rcases he with he | he | he <;> (subst he; rfl)

theorem c4_witness :
    (kitresetExecute [("alice", 5)] "alice").1 ≠ [("alice", 5)] ∧
    Effect.save "kit_received" (kitresetExecute [("alice", 5)] "alice").1 ∈
      (kitresetExecute [("alice", 5)] "alice").2 :=
  ⟨by decide, c4_amended.2.1 [("alice", 5)] "alice" (by decide)⟩

/-! ## Precondition failures (C5) -/

/-- C5 counterexample: the template's `/js kit` handler with a non-player
sender returns 0 silently — its effect list is empty, so no user-visible
chat message is sent, contradicting the claim that every registered
handler replies on a failed precondition. -/
theorem c5_counterexample : jsKitExecute none = ([], 0) := rfl

/-- C5 (amended): the v1.0.0 example-mod handlers reply with a
user-visible chat message and return without performing the command's
effect when a precondition fails (non-player sender, missing target), and
none of the modelled handlers can raise (all are total); the template
mod's handlers are not uniform: `/js kit` and the standalone `/kit`
return 0 with no message when the sender is not a player (so the original
universal fails), while `/js playtime`'s non-player guard does send
"Players only!" and the template's missing-target checks (e.g.
`/js home go`) send an error message. -/
theorem c5_amended :
    (∀ (m : KitMap) (p : String) (now : Int),
      kitExecute m false p now =
        (m, [Effect.reply "§cOnly players can use this command!"])) ∧
    (∀ (m : KitMap) (t : String), truthyNum (lookupKey m t) = false →
      kitresetExecute m t =
        (m, [Effect.reply ("§c" ++ t ++ " hasn't received a kit yet")])) ∧
    (∀ (m : HomeMap) (a : Option String),
      homeExecute m none a =
        (m, [Effect.reply "§cOnly players can use this command!"])) ∧
    (∀ (m : List (String × BlockPos)) (uuid : String), lookupKey m uuid = none →
      jsHomeGo m (some uuid) =
        (m, [Effect.sendError "No home set. Use /js home set first."], 0)) ∧
    (∀ (pd : List (String × PlayerRec)) (now : Int),
      jsPlaytimeExecute pd none now = ([Effect.sendError "Players only!"], 0)) ∧
    jsKitExecute none = ([], 0) ∧ standaloneKitExecute none = ([], 0) := by
  refine ⟨?_, ?_, ?_, ?_, ?_, rfl, rfl⟩
  · intro m p now
    rfl
  · intro m t h
    simp [kitresetExecute, h]
  · intro m a
    rfl
  · intro m uuid h
    simp [jsHomeGo, h]
  · intro pd now
    rfl

theorem c5_witness :
    truthyNum (lookupKey ([] : KitMap) "bob") = false ∧
    kitresetExecute [] "bob" =
      ([], [Effect.reply ("§c" ++ "bob" ++ " hasn't received a kit yet")]) :=
  ⟨rfl, c5_amended.2.1 [] "bob" rfl⟩

/-! ## Daily reward cooldown (C10) -/

/-- C10: a `/js daily` invocation less than `DAILY_COOLDOWN_MS` after the
player's last successful claim grants nothing, replies with the remaining
wait time, returns 0 and leaves the stored claim map (hence the stored
timestamp) unchanged; an invocation with no stored claim, or at or after
the cooldown, grants the reward (3 emeralds, 1 golden apple), records the
current time under the player's uuid and returns 1. -/
theorem c10_daily_cooldown (claims : List (String × Int)) (uuid : String)
    (now last : Int) :
    (lookupKey claims uuid = some last → now - last < DAILY_COOLDOWN_MS →
      jsDaily claims (some uuid) now =
        (claims,
         [Effect.feedback ("🎁 Daily reward available in " ++
            formatDurationMs (DAILY_COOLDOWN_MS - (now - last)) ++ ".")], 0)) ∧
    ((lookupKey claims uuid = none ∨
        (lookupKey claims uuid = some last ∧ DAILY_COOLDOWN_MS ≤ now - last)) →
      jsDaily claims (some uuid) now =
        (setKey claims uuid now,
         [Effect.give "minecraft:emerald" 3, Effect.give "minecraft:golden_apple" 1,
          Effect.feedback "🎁 Daily reward claimed!"], 1)) := by
  constructor
  · intro hl hc
    simp [jsDaily, hl, hc]
  · rintro (hl | ⟨hl, hc⟩)
    · simp [jsDaily, hl]
    · simp [jsDaily, hl, not_lt.mpr hc]

theorem c10_witness :
    lookupKey [("u", 1000)] "u" = some 1000 ∧
    ((2000 : Int) - 1000 < DAILY_COOLDOWN_MS) ∧
    jsDaily [("u", 1000)] (some "u") 2000 =
      ([("u", 1000)],
       [Effect.feedback ("🎁 Daily reward available in " ++
          formatDurationMs (DAILY_COOLDOWN_MS - ((2000 : Int) - 1000)) ++ ".")], 0) :=
  ⟨rfl, by decide,
   (c10_daily_cooldown [("u", 1000)] "u" 2000 1000).1 rfl (by decide)⟩

end ThreadJS
